import Mathlib

/-!
Shallow embedding of the caching / request-deduplication layer and the
DOCX/XLSX text-extraction pipeline of the ChatbotChaytau repository,
together with theorems settling the frozen claims about it.

Sources embedded:
- `src/app/server/utils/cache.py` (fingerprint builder and cache store)
- `src/app/server/utils/file_utils.py` (DOCX/XLSX extraction helpers)
- `src/backend/app/utils/file_utils.py` (backend extraction and upload)
- `src/backend/app/services/chat.py` (generation orchestrator)

Machine-level conventions: Python strings are Lean `String`s; Python
`datetime` values are `Int` instants on an abstract time axis (only
order and addition of TTL offsets matter); XML documents are values of
an explicit element tree type mirroring what `xml.etree.ElementTree`
exposes to the code (tag, attributes, direct text, children); ZIP
archive access and external services (Gemini client, SQL storage
faults, uuid generation) appear as explicit parameters.
-/

/-- Python `str.endswith(suffix)`. Stated over the character lists so
that it evaluates by kernel reduction. -/
def strEndsWith (s suffix : String) : Bool :=
  suffix.data.isSuffixOf s.data

/-- Python `str.strip` / `str.split()` whitespace set (the ASCII part,
which is what the repository's data contains): space, tab, newline,
carriage return, vertical tab, form feed. -/
def pyWhitespace (c : Char) : Bool :=
  c = ' ' || c = '\t' || c = '\n' || c = '\r' || c = '\x0b' || c = '\x0c'

/-- Python `str.strip()` with no arguments. -/
def pyStrip (s : String) : String :=
  String.mk (((s.data.dropWhile pyWhitespace).reverse.dropWhile pyWhitespace).reverse)

/-- Python slicing `s[:n]` (by code point, as Python indexes strings). -/
def pyTake (s : String) (n : Nat) : String :=
  String.mk (s.data.take n)

/-- Accumulating scan behind `pySplitWs`: `acc` holds the reversed
characters of the token currently being read. -/
def wsSplitAux : List Char → List Char → List (List Char)
  | [], acc => if acc.isEmpty then [] else [acc.reverse]
  | c :: rest, acc =>
    if pyWhitespace c then
      if acc.isEmpty then wsSplitAux rest [] else acc.reverse :: wsSplitAux rest []
    else wsSplitAux rest (c :: acc)

/-- Python `str.split()` with no arguments: split on whitespace runs,
dropping empty fragments. -/
def pySplitWs (s : String) : List String :=
  (wsSplitAux s.data []).map String.mk

/-- Element of an XML tree as `xml.etree.ElementTree` presents it to the
code: qualified tag, attribute list, direct text content (`.text`,
`None` or a string), and child elements in document order. -/
inductive XmlNode where
  | mk (tag : String) (attrs : List (String × String)) (text : Option String)
      (children : List XmlNode)

def XmlNode.tag : XmlNode → String
  | .mk t _ _ _ => t

def XmlNode.attrs : XmlNode → List (String × String)
  | .mk _ a _ _ => a

def XmlNode.text : XmlNode → Option String
  | .mk _ _ x _ => x

def XmlNode.children : XmlNode → List XmlNode
  | .mk _ _ _ c => c

mutual

/-- Python `element.iter()`: the element itself followed by all
descendants in document order. -/
def XmlNode.iter : XmlNode → List XmlNode
  | .mk t a x c => .mk t a x c :: iterList c
termination_by structural n => n

def iterList : List XmlNode → List XmlNode
  | [] => []
  | n :: ns => n.iter ++ iterList ns
termination_by structural l => l

end

/-- Python truthiness of `node.text`: present and non-empty. -/
def textTruthy (n : XmlNode) : Bool :=
  match n.text with
  | some s => decide (s ≠ "")
  | none => false

/-- Python `element.attrib.get(key, default)`. -/
def getAttr (attrs : List (String × String)) (key dflt : String) : String :=
  match attrs.find? (fun kv => kv.1 == key) with
  | some kv => kv.2
  | none => dflt

/-! ## DOCX extraction (`src/app/server/utils/file_utils.py` lines 186-218) -/

/-- One iteration of the run-walk inside `_extract_text_from_docx_xml`:
text-run elements emit their text, tab elements a tab, break elements a
newline; everything else contributes nothing. -/
def docxRunFragment (n : XmlNode) : Option String :=
  if strEndsWith n.tag "\x7dt" && textTruthy n then n.text
  else if strEndsWith n.tag "\x7dtab" then some "\t"
  else if strEndsWith n.tag "\x7dbr" || strEndsWith n.tag "\x7dcr" then some "\n"
  else none

/-- Embedding of `_extract_text_from_docx_xml` applied to an already
parsed XML part (the `ET.ParseError → ""` branch is outside this
function's domain: callers supply a parsed tree). -/
def _extract_text_from_docx_xml (root : XmlNode) : String :=
  let paragraphTexts :=
    (root.iter.filter (fun n => strEndsWith n.tag "\x7dp")).filterMap (fun p =>
      let t := pyStrip (String.join (p.iter.filterMap docxRunFragment))
      if t = "" then none else some t)
  if paragraphTexts ≠ [] then
    String.intercalate "\n" paragraphTexts
  else
    pyStrip (String.intercalate "\n" (root.iter.filterMap (fun n =>
      if strEndsWith n.tag "\x7dt" && textTruthy n then n.text else none)))

/-- Embedding of the backend `extract_docx_text` XML walk
(`src/backend/app/utils/file_utils.py` lines 53-59) applied to the
parsed `word/document.xml` tree: all text-run leaves anywhere in the
part, newline-joined, stripped. -/
def extract_docx_text_walk (root : XmlNode) : String :=
  pyStrip (String.intercalate "\n" (root.iter.filterMap (fun n =>
    if strEndsWith n.tag "\x7dt" && textTruthy n then n.text else none)))

/-! ## XLSX extraction (`src/app/server/utils/file_utils.py` lines 262-334) -/

/-- Embedding of `_normalize_extracted_text`: replace CR/LF by spaces,
collapse whitespace runs, strip, truncate to `maxChars` with an
ellipsis marker. -/
def _normalize_extracted_text (value : String) (maxChars : Nat := 400) : String :=
  let replaced := String.mk (value.data.map (fun c => if c = '\r' || c = '\n' then ' ' else c))
  let normalized := pyStrip (String.intercalate " " (pySplitWs replaced))
  if maxChars < normalized.data.length then pyTake normalized maxChars ++ "..." else normalized

/-- Validity of a digit run as accepted by Python `int()`: nonempty
digits with single underscores allowed between digits. -/
def pyDigitsRest : List Char → Bool
  | [] => true
  | '_' :: d :: r => d.isDigit && pyDigitsRest r
  | '_' :: [] => false
  | d :: r => d.isDigit && pyDigitsRest r

def pyDigitsOk : List Char → Bool
  | [] => false
  | c :: rest => c.isDigit && pyDigitsRest rest

def digitsVal (cs : List Char) : Nat :=
  (cs.filter (· ≠ '_')).foldl (fun a c => a * 10 + (c.toNat - 48)) 0

/-- Python `int(s)` on a string: optional surrounding whitespace,
optional sign, digits (with underscore separators); `none` models the
`ValueError` the code catches. -/
def parsePyInt (s : String) : Option Int :=
  let cs := ((s.data.dropWhile pyWhitespace).reverse.dropWhile pyWhitespace).reverse
  match cs with
  | '+' :: rest => if pyDigitsOk rest then some (digitsVal rest) else none
  | '-' :: rest => if pyDigitsOk rest then some (-(digitsVal rest : Int)) else none
  | _ => if pyDigitsOk cs then some (digitsVal cs) else none

/-- Raw cell value scan inside `_extract_xlsx_cell_value`: the first
direct child whose tag ends with the value-element suffix and whose
text is not `None` supplies the value; otherwise `""`. -/
def rawCellValue : List XmlNode → String
  | [] => ""
  | n :: rest =>
    if strEndsWith n.tag "\x7dv" then
      match n.text with
      | some s => s
      | none => rawCellValue rest
    else rawCellValue rest

/-- Embedding of `_extract_xlsx_cell_value`. -/
def _extract_xlsx_cell_value (cell : XmlNode) (shared_strings : List String) : String :=
  let cell_type := getAttr cell.attrs "t" ""
  if cell_type = "inlineStr" then
    _normalize_extracted_text (String.join (cell.iter.filterMap (fun n =>
      if strEndsWith n.tag "\x7dt" && textTruthy n then n.text else none)))
  else
    let raw_value := rawCellValue cell.children
    if raw_value = "" then ""
    else if cell_type = "s" then
      match parsePyInt raw_value with
      | some i =>
        if 0 ≤ i ∧ i < shared_strings.length then
          _normalize_extracted_text (shared_strings.getD i.toNat "")
        else ""
      | none => ""
    else if cell_type = "b" then
      if raw_value = "1" then "TRUE" else "FALSE"
    else _normalize_extracted_text raw_value

/-- The non-empty resolved cell values of one row element (direct
children that are cell elements, empty values omitted). -/
def rowCells (row : XmlNode) (shared_strings : List String) : List String :=
  (row.children.filter (fun c => strEndsWith c.tag "\x7dc")).filterMap (fun c =>
    let v := _extract_xlsx_cell_value c shared_strings
    if v = "" then none else some v)

/-- The loop body of `_extract_rows_from_xlsx_sheet_xml`: walk row
elements accumulating rendered rows; once the accumulator reaches
`maxRows` entries, append the truncation marker and stop. -/
def extractRowsLoop (shared_strings : List String) (maxRows : Nat) :
    List XmlNode → List String → List String
  | [], rows => rows
  | r :: rest, rows =>
    let cells := rowCells r shared_strings
    let rows' := if cells.isEmpty then rows else rows ++ [String.intercalate " | " cells]
    if maxRows ≤ rows'.length then rows' ++ ["[...] truncated"]
    else extractRowsLoop shared_strings maxRows rest rows'

/-- Embedding of `_extract_rows_from_xlsx_sheet_xml` applied to a
parsed worksheet tree. -/
def _extract_rows_from_xlsx_sheet_xml (root : XmlNode) (shared_strings : List String)
    (maxRows : Nat := 600) : List String :=
  extractRowsLoop shared_strings maxRows
    (root.iter.filter (fun n => strEndsWith n.tag "\x7drow")) []

/-! ## Request fingerprint builder (`src/app/server/utils/cache.py` lines 13-46) -/

/-- Hex digit characters as `"%04x"` formatting produces them
(lowercase). -/
def hexDigitChar (n : Nat) : Char :=
  if n < 10 then Char.ofNat (48 + n) else Char.ofNat (87 + n)

/-- Escape of one character under `json.dumps(..., ensure_ascii=False)`:
quote and backslash get a backslash escape, the five short control
escapes are used where they exist, remaining control characters become
`\u00xx`, everything else passes through unchanged. -/
def jsonEscapeChar (c : Char) : List Char :=
  if c = '"' then ['\\', '"']
  else if c = '\\' then ['\\', '\\']
  else if c = '\n' then ['\\', 'n']
  else if c = '\t' then ['\\', 't']
  else if c = '\r' then ['\\', 'r']
  else if c = '\x08' then ['\\', 'b']
  else if c = '\x0c' then ['\\', 'f']
  else if c.toNat < 32 then ['\\', 'u', '0', '0', hexDigitChar (c.toNat / 16), hexDigitChar (c.toNat % 16)]
  else [c]

def jsonEscapeBody (cs : List Char) : List Char :=
  cs.flatMap jsonEscapeChar

/-- A JSON string literal: quote, escaped body, quote. -/
def jsonStringChars (s : String) : List Char :=
  '"' :: jsonEscapeBody s.data ++ ['"']

/-- The elements of a JSON array of strings joined by the default
`", "` item separator of `json.dumps`. -/
def encodeStringsAux : List String → List Char
  | [] => []
  | [x] => jsonStringChars x
  | x :: xs => jsonStringChars x ++ ',' :: ' ' :: encodeStringsAux xs

/-- The normalized record `make_request_key` builds before serializing:
schema version tag, model id, input text, normalized instructions, and
the ordered per-attachment digest list. -/
structure NormalizedRecord where
  schema_version : String
  model : String
  input : String
  instructions : String
  file_hashes : List String
  deriving DecidableEq

/-- Serialization of the normalized record exactly as
`json.dumps(normalized, sort_keys=True, ensure_ascii=False)` renders
it: keys in sorted order (`file_hashes`, `input`, `instructions`,
`model`, `schema_version`), `", "` and `": "` separators, JSON string
escaping as in `jsonEscapeChar`. -/
def serializeNormalized (n : NormalizedRecord) : List Char :=
  ("\x7b\"file_hashes\": [").data ++ encodeStringsAux n.file_hashes ++ ']' ::
  (", \"input\": ").data ++ jsonStringChars n.input ++
  (", \"instructions\": ").data ++ jsonStringChars n.instructions ++
  (", \"model\": ").data ++ jsonStringChars n.model ++
  (", \"schema_version\": ").data ++ jsonStringChars n.schema_version ++ ['\x7d']

def CACHE_KEY_SCHEMA_VERSION : String := "v2"

/-- The request shape consumed by the cache layer and the orchestrator
(`ChatRequest` in `src/app/server/schemas/chat.py`; `None` file list
and `getattr` defaults collapse to the empty list as in the code). -/
structure ChatRequest where
  conversation_id : Option String
  instructions : Option String
  input : String
  model : String
  file_paths : List String

/-- Embedding of `_compute_file_hash`: hash the file's content when the
path exists, otherwise fall back to the literal path string. `fs` maps
a path to its byte content when the file exists; `fileHash` models the
SHA-256 hex digest of `get_file_hash` (I/O errors during hashing, which
the code also maps to the path fallback, are not modelled: `fileHash`
is total). -/
def _compute_file_hash (fileHash : String → String) (fs : String → Option String)
    (path : String) : String :=
  match fs path with
  | some content => fileHash content
  | none => path

/-- The normalized record built by `make_request_key` lines 34-43:
`instructions` of `None` or `""` both normalize to `""` (the `or ""`),
and per-attachment digests are collected in order. -/
def normalizeRequest (fileHash : String → String) (fs : String → Option String)
    (req : ChatRequest) : NormalizedRecord :=
  { schema_version := CACHE_KEY_SCHEMA_VERSION
    model := req.model
    input := req.input
    instructions := req.instructions.getD ""
    file_hashes := req.file_paths.map (_compute_file_hash fileHash fs) }

/-- Embedding of `make_request_key`: serialize the normalized record and
digest it. `keyHash` models `sha256(...).hexdigest()` over the
serialized text; the determinism and field-sensitivity claims hold for
every digest function, so it is a parameter. -/
def make_request_key (keyHash fileHash : String → String)
    (fs : String → Option String) (req : ChatRequest) : String :=
  keyHash (String.mk (serializeNormalized (normalizeRequest fileHash fs req)))

/-! ### Inverse of the serializer

The definitions below are not embeddings of repository code: they form
a decoder for the exact output format of `serializeNormalized`, used
only to prove that serialization of the normalized record is injective
(so any difference in a normalized field yields a different serialized
record). -/

def hexVal (c : Char) : Option Nat :=
  if '0' ≤ c ∧ c ≤ '9' then some (c.toNat - 48)
  else if 'a' ≤ c ∧ c ≤ 'f' then some (c.toNat - 87)
  else none

def hexVal4 (a b c d : Char) : Option Nat := do
  let va ← hexVal a
  let vb ← hexVal b
  let vc ← hexVal c
  let vd ← hexVal d
  pure (((va * 16 + vb) * 16 + vc) * 16 + vd)

def unescapeSimple (e : Char) : Option Char :=
  if e = '"' then some '"'
  else if e = '\\' then some '\\'
  else if e = 'n' then some '\n'
  else if e = 't' then some '\t'
  else if e = 'r' then some '\r'
  else if e = 'b' then some '\x08'
  else if e = 'f' then some '\x0c'
  else none

/-- Decode the body of a JSON string literal up to and including its
closing quote, returning the decoded characters and the remaining
input. -/
def decodeBody : List Char → Option (List Char × List Char)
  | [] => none
  | c :: rest =>
    if c = '"' then some ([], rest)
    else if c = '\\' then
      match rest with
      | [] => none
      | e :: rest2 =>
        if e = 'u' then
          match rest2 with
          | h1 :: h2 :: h3 :: h4 :: rest3 =>
            match hexVal4 h1 h2 h3 h4, decodeBody rest3 with
            | some n, some (s, r) => some (Char.ofNat n :: s, r)
            | _, _ => none
          | _ => none
        else
          match unescapeSimple e, decodeBody rest2 with
          | some c2, some (s, r) => some (c2 :: s, r)
          | _, _ => none
    else
      match decodeBody rest with
      | some (s, r) => some (c :: s, r)
      | none => none
termination_by l => l.length

def decodeString : List Char → Option (List Char × List Char)
  | [] => none
  | c :: r => if c = '"' then decodeBody r else none

/-- Decode one-or-more comma-separated JSON strings followed by a
closing bracket; `fuel` bounds the number of elements. -/
def decodeStringsF : Nat → List Char → Option (List String × List Char)
  | 0, _ => none
  | fuel + 1, l =>
    match decodeString l with
    | none => none
    | some (s, r) =>
      match r with
      | ']' :: r2 => some ([String.mk s], r2)
      | ',' :: ' ' :: r2 =>
        match decodeStringsF fuel r2 with
        | some (ss, r3) => some (String.mk s :: ss, r3)
        | none => none
      | _ => none

/-- Consume an exact literal prefix. -/
def stripLit : List Char → List Char → Option (List Char)
  | [], l => some l
  | _ :: _, [] => none
  | c :: lit, d :: l => if c = d then stripLit lit l else none

def decodeRecordTail (file_hashes : List String) (r2 : List Char) :
    Option NormalizedRecord := do
  let r3 ← stripLit (", \"input\": ").data r2
  let (inp, r4) ← decodeString r3
  let r5 ← stripLit (", \"instructions\": ").data r4
  let (ins, r6) ← decodeString r5
  let r7 ← stripLit (", \"model\": ").data r6
  let (mdl, r8) ← decodeString r7
  let r9 ← stripLit (", \"schema_version\": ").data r8
  let (sv, r10) ← decodeString r9
  let r11 ← stripLit ['\x7d'] r10
  if r11 = [] then
    pure { schema_version := String.mk sv, model := String.mk mdl,
           input := String.mk inp, instructions := String.mk ins,
           file_hashes := file_hashes }
  else none

/-- Decode a JSON array body after the opening bracket: an immediate
closing bracket yields the empty list, anything else is delegated to
`decodeStringsF` with enough fuel for the input at hand. -/
def decodeStringsOrEmpty : List Char → Option (List String × List Char)
  | ']' :: r2 => some ([], r2)
  | l => decodeStringsF (l.length + 1) l

/-- Full decoder for the output of `serializeNormalized`. -/
def decodeRecord (l : List Char) : Option NormalizedRecord := do
  let r1 ← stripLit ("\x7b\"file_hashes\": [").data l
  let (fhs, r2) ← decodeStringsOrEmpty r1
  decodeRecordTail fhs r2

/-! ### Roundtrip proofs for the serializer inverse -/

theorem decodeBody_quote (rest : List Char) : decodeBody ('"' :: rest) = some ([], rest) := by
  rw [decodeBody.eq_def]; simp

theorem decodeBody_plain (c : Char) (h1 : c ≠ '"') (h2 : c ≠ '\\') (rest s r : List Char)
    (hr : decodeBody rest = some (s, r)) : decodeBody (c :: rest) = some (c :: s, r) := by
  rw [decodeBody.eq_def]; simp [h1, h2, hr]

theorem decodeBody_esc (e c2 : Char) (he : unescapeSimple e = some c2) (hu : e ≠ 'u')
    (rest s r : List Char) (hr : decodeBody rest = some (s, r)) :
    decodeBody ('\\' :: e :: rest) = some (c2 :: s, r) := by
  rw [decodeBody.eq_def]
  simp only [reduceCtorEq, reduceIte]
  simp only [show ('\\' : Char) ≠ '"' from by decide, if_neg, if_pos rfl]
  simp [hu, he, hr]

theorem decodeBody_unicode (h1 h2 h3 h4 : Char) (n : Nat) (hv : hexVal4 h1 h2 h3 h4 = some n)
    (rest s r : List Char) (hr : decodeBody rest = some (s, r)) :
    decodeBody ('\\' :: 'u' :: h1 :: h2 :: h3 :: h4 :: rest) = some (Char.ofNat n :: s, r) := by
  rw [decodeBody.eq_def]
  simp [hv, hr]

theorem stripLit_append (lit rest : List Char) : stripLit lit (lit ++ rest) = some rest := by
  induction lit with
  | nil => rfl
  | cons c cs ih => simp [stripLit, ih]

theorem hexVal_hexDigitChar : ∀ k, k < 16 → hexVal (hexDigitChar k) = some k := by decide

theorem decodeBody_escape (s rest : List Char) :
    decodeBody (jsonEscapeBody s ++ '"' :: rest) = some (s, rest) := by
  induction s with
  | nil => simpa [jsonEscapeBody] using decodeBody_quote rest
  | cons c cs ih =>
    have hflat : jsonEscapeBody (c :: cs) ++ '"' :: rest =
        jsonEscapeChar c ++ (jsonEscapeBody cs ++ '"' :: rest) := by
      simp [jsonEscapeBody]
    rw [hflat]
    by_cases h1 : c = '"'
    · subst h1
      simpa [jsonEscapeChar] using decodeBody_esc '"' '"' (by decide) (by decide) _ _ _ ih
    · by_cases h2 : c = '\\'
      · subst h2
        simpa [jsonEscapeChar] using decodeBody_esc '\\' '\\' (by decide) (by decide) _ _ _ ih
      · by_cases h3 : c = '\n'
        · subst h3
          simpa [jsonEscapeChar] using decodeBody_esc 'n' '\n' (by decide) (by decide) _ _ _ ih
        · by_cases h4 : c = '\t'
          · subst h4
            simpa [jsonEscapeChar] using decodeBody_esc 't' '\t' (by decide) (by decide) _ _ _ ih
          · by_cases h5 : c = '\r'
            · subst h5
              simpa [jsonEscapeChar] using decodeBody_esc 'r' '\r' (by decide) (by decide) _ _ _ ih
            · by_cases h6 : c = '\x08'
              · subst h6
                simpa [jsonEscapeChar] using decodeBody_esc 'b' '\x08' (by decide) (by decide) _ _ _ ih
              · by_cases h7 : c = '\x0c'
                · subst h7
                  simpa [jsonEscapeChar] using decodeBody_esc 'f' '\x0c' (by decide) (by decide) _ _ _ ih
                · by_cases h8 : c.toNat < 32
                  · have hd : c.toNat / 16 < 16 := by omega
                    have hm : c.toNat % 16 < 16 := Nat.mod_lt _ (by norm_num)
                    have hv : hexVal4 '0' '0' (hexDigitChar (c.toNat / 16)) (hexDigitChar (c.toNat % 16))
                        = some c.toNat := by
                      rw [hexVal4]
                      simp only [show hexVal '0' = some 0 from by decide,
                        hexVal_hexDigitChar _ hd, hexVal_hexDigitChar _ hm]
                      exact congrArg some (by omega :
                        ((0 * 16 + 0) * 16 + c.toNat / 16) * 16 + c.toNat % 16 = c.toNat)
                    have hstep := decodeBody_unicode '0' '0' (hexDigitChar (c.toNat / 16))
                      (hexDigitChar (c.toNat % 16)) c.toNat hv _ _ _ ih
                    rw [Char.ofNat_toNat] at hstep
                    simpa [jsonEscapeChar, h1, h2, h3, h4, h5, h6, h7, h8] using hstep
                  · have hstep := decodeBody_plain c h1 h2 _ _ _ ih
                    simpa [jsonEscapeChar, h1, h2, h3, h4, h5, h6, h7, h8] using hstep

theorem decodeString_jsonString (s : String) (rest : List Char) :
    decodeString (jsonStringChars s ++ rest) = some (s.data, rest) := by
  have h : jsonStringChars s ++ rest = '"' :: (jsonEscapeBody s.data ++ '"' :: rest) := by
    simp [jsonStringChars]
  rw [h]
  simp [decodeString, decodeBody_escape]

theorem decodeStringsF_encode : ∀ (fuel : Nat) (ss : List String) (rest : List Char),
    ss ≠ [] → ss.length ≤ fuel →
    decodeStringsF fuel (encodeStringsAux ss ++ ']' :: rest) = some (ss, rest) := by
  intro fuel
  induction fuel with
  | zero => intro ss rest hne hle; simp at hle; exact absurd hle hne
  | succ k ih =>
    intro ss rest hne _
    match ss with
    | [x] =>
      have h : encodeStringsAux [x] ++ ']' :: rest = jsonStringChars x ++ ']' :: rest := by
        simp [encodeStringsAux]
      rw [h]
      simp [decodeStringsF, decodeString_jsonString]
    | x :: y :: ys =>
      have h : encodeStringsAux (x :: y :: ys) ++ ']' :: rest =
          jsonStringChars x ++ (',' :: ' ' :: (encodeStringsAux (y :: ys) ++ ']' :: rest)) := by
        simp [encodeStringsAux]
      rw [h]
      have hlen : (y :: ys).length ≤ k := by
        simp at *; omega
      simp [decodeStringsF, decodeString_jsonString, ih (y :: ys) rest (by simp) hlen]

def recordTailChars (n : NormalizedRecord) : List Char :=
  (", \"input\": ").data ++ jsonStringChars n.input ++
  (", \"instructions\": ").data ++ jsonStringChars n.instructions ++
  (", \"model\": ").data ++ jsonStringChars n.model ++
  (", \"schema_version\": ").data ++ jsonStringChars n.schema_version ++ ['\x7d']

theorem serializeNormalized_shape (n : NormalizedRecord) :
    serializeNormalized n = ("\x7b\"file_hashes\": [").data ++
      (encodeStringsAux n.file_hashes ++ ']' :: recordTailChars n) := by
  simp [serializeNormalized, recordTailChars]

theorem stripLit_self (l : List Char) : stripLit l l = some [] := by
  have h := stripLit_append l []
  simpa using h

theorem decodeRecordTail_roundtrip (fhs : List String) (n : NormalizedRecord) :
    decodeRecordTail fhs (recordTailChars n) =
      some ⟨n.schema_version, n.model, n.input, n.instructions, fhs⟩ := by
  simp [decodeRecordTail, recordTailChars, stripLit, decodeString_jsonString]

theorem length_le_encodeStringsAux (ss : List String) : ss.length ≤ (encodeStringsAux ss).length := by
  induction ss with
  | nil => simp [encodeStringsAux]
  | cons x xs ih =>
    cases xs with
    | nil => simp [encodeStringsAux, jsonStringChars]
    | cons y ys =>
      have h : encodeStringsAux (x :: y :: ys) = jsonStringChars x ++ ',' :: ' ' :: encodeStringsAux (y :: ys) := by
        simp [encodeStringsAux]
      rw [h]
      simp only [List.length_cons, List.length_append]
      simp at ih ⊢
      omega

theorem encodeStringsAux_cons_head (x : String) (xs : List String) :
    ∃ t, encodeStringsAux (x :: xs) = '"' :: t := by
  cases xs <;> simp [encodeStringsAux, jsonStringChars]

theorem decodeStringsOrEmpty_quote (l : List Char) :
    decodeStringsOrEmpty ('"' :: l) = decodeStringsF (('"' :: l).length + 1) ('"' :: l) := rfl

theorem decodeStringsOrEmpty_encode (ss : List String) (rest : List Char) :
    decodeStringsOrEmpty (encodeStringsAux ss ++ ']' :: rest) = some (ss, rest) := by
  cases ss with
  | nil => simp [encodeStringsAux, decodeStringsOrEmpty]
  | cons x xs =>
    obtain ⟨t, ht⟩ := encodeStringsAux_cons_head x xs
    have ht2 : encodeStringsAux (x :: xs) ++ ']' :: rest = '"' :: (t ++ ']' :: rest) := by
      rw [ht, List.cons_append]
    have hb : (x :: xs).length ≤ (encodeStringsAux (x :: xs) ++ ']' :: rest).length + 1 := by
      have hle := length_le_encodeStringsAux (x :: xs)
      simp only [List.length_append]
      omega
    rw [ht2, decodeStringsOrEmpty_quote, ← ht2,
      decodeStringsF_encode _ (x :: xs) _ (by simp) hb]

theorem decodeRecord_serialize (n : NormalizedRecord) :
    decodeRecord (serializeNormalized n) = some n := by
  rw [serializeNormalized_shape]
  simp only [decodeRecord, stripLit_append, Option.bind_eq_bind, Option.some_bind,
    decodeStringsOrEmpty_encode]
  exact (decodeRecordTail_roundtrip n.file_hashes n).trans rfl

/-- Injectivity of the canonical serialization. -/
theorem serializeNormalized_injective (n1 n2 : NormalizedRecord)
    (h : serializeNormalized n1 = serializeNormalized n2) : n1 = n2 := by
  have h1 := decodeRecord_serialize n1
  have h2 := decodeRecord_serialize n2
  rw [h] at h1
  rw [h1] at h2
  exact Option.some.inj h2

/-! ## Response cache store (`src/app/server/utils/cache.py` lines 49-110)

The SQL session is modelled as the list of `CachedResponse` rows in
insertion order; `SELECT ... .first()` takes the first row whose
`request_key` matches.  `datetime` instants are `Int`; a TTL of `d`
days is the offset `d` on that axis (only order matters). -/

/-- A `CachedResponse` row (`src/app/server/models/cache.py`); the
opaque `id` primary key plays no role in the cached-response logic and
is omitted. -/
structure CacheEntry where
  request_key : String
  model : String
  input_text : String
  instructions : Option String
  file_hashes : List String
  response_text : String
  meta_data : List (String × String)
  created_at : Int
  expires_at : Option Int
  deriving DecidableEq

/-- Embedding of `get_cached_response`: find the first row for the key;
a row whose expiry has passed is deleted (the returned list) and `none`
is returned; the `Bool` records whether that deletion committed the
session. -/
def get_cached_response : List CacheEntry → String → Int →
    Option CacheEntry × List CacheEntry × Bool
  | [], _, _ => (none, [], false)
  | e :: rest, key, now =>
    if e.request_key = key then
      match e.expires_at with
      | some t => if t < now then (none, rest, true) else (some e, e :: rest, false)
      | none => (some e, e :: rest, false)
    else
      let (r, rest', c) := get_cached_response rest key now
      (r, e :: rest', c)

/-- The row written by `store_cached_response` for the given fields. -/
def storedEntry (request_key model input_text : String) (instructions : Option String)
    (file_hashes : List String) (response_text : String)
    (meta_data : Option (List (String × String))) (now : Int)
    (expires_at : Option Int) : CacheEntry :=
  { request_key := request_key, model := model, input_text := input_text,
    instructions := instructions, file_hashes := file_hashes,
    response_text := response_text, meta_data := meta_data.getD [],
    created_at := now, expires_at := expires_at }

/-- Embedding of `store_cached_response`: resolve the TTL (explicit
argument, else the configured `CACHE_TTL_DAYS` value `envTTL`, which
models `int(os.getenv("CACHE_TTL_DAYS", "30"))` with its parse-failure
fallback already applied); a positive TTL sets `expires_at` to
`now + ttl`, zero or negative leaves it unset; then overwrite the first
row with the key in place, or insert a new row. -/
def store_cached_response (cache : List CacheEntry) (request_key model input_text : String)
    (instructions : Option String) (file_hashes : List String) (response_text : String)
    (meta_data : Option (List (String × String)) := none)
    (ttl_days : Option Int := none) (envTTL : Int := 30) (now : Int := 0) :
    List CacheEntry :=
  let ttl := ttl_days.getD envTTL
  let expires_at : Option Int := if 0 < ttl then some (now + ttl) else none
  let entry := storedEntry request_key model input_text instructions file_hashes
    response_text meta_data now expires_at
  go entry cache
where
  /-- Update the first matching row in place, else append (`session.add`). -/
  go (entry : CacheEntry) : List CacheEntry → List CacheEntry
    | [] => [entry]
    | e :: rest =>
      if e.request_key = entry.request_key then entry :: rest
      else e :: go entry rest

/-! ### Cache store lemmas -/

theorem cache_roundtrip_aux (cache : List CacheEntry) (key model input : String)
    (instr : Option String) (fhs : List String) (text : String)
    (meta : Option (List (String × String))) (ttl envTTL now now' : Int)
    (hlive : 0 < ttl → now' < now + ttl) :
    ((get_cached_response (store_cached_response cache key model input instr fhs text
        meta (some ttl) envTTL now) key now').1).map CacheEntry.response_text = some text := by
  unfold store_cached_response
  simp only [Option.getD_some]
  have hkey : (storedEntry key model input instr fhs text meta now
      (if 0 < ttl then some (now + ttl) else none)).request_key = key := rfl
  induction cache with
  | nil =>
    simp only [store_cached_response.go]
    by_cases h : 0 < ttl
    · simp [get_cached_response, storedEntry, h, not_lt.mpr (le_of_lt (hlive h))]
    · simp [get_cached_response, storedEntry, h]
  | cons e rest ih =>
    by_cases he : e.request_key = key
    · simp only [store_cached_response.go, hkey, he, if_pos]
      by_cases h : 0 < ttl
      · simp [get_cached_response, storedEntry, h, not_lt.mpr (le_of_lt (hlive h))]
      · simp [get_cached_response, storedEntry, h]
    · simp only [store_cached_response.go, hkey, he, if_false]
      simp only [get_cached_response, hkey, he, if_false]
      simpa using ih

theorem get_cached_live_aux (cache : List CacheEntry) (key : String) (now : Int)
    (e : CacheEntry) (h : (get_cached_response cache key now).1 = some e) :
    e.expires_at = none ∨ ∃ t, e.expires_at = some t ∧ ¬ t < now := by
  induction cache with
  | nil => simp [get_cached_response] at h
  | cons f rest ih =>
    by_cases hf : f.request_key = key
    · rcases hexp : f.expires_at with _ | t
      · simp [get_cached_response, hf, hexp] at h
        subst h
        exact Or.inl hexp
      · by_cases ht : t < now
        · simp [get_cached_response, hf, hexp, ht] at h
        · simp [get_cached_response, hf, hexp, ht] at h
          subst h
          exact Or.inr ⟨t, hexp, ht⟩
    · simp only [get_cached_response, hf, if_false] at h
      exact ih h

theorem get_cached_expired_deletes_aux (pre : List CacheEntry) (e : CacheEntry)
    (post : List CacheEntry) (key : String) (now t : Int)
    (hpre : ∀ x ∈ pre, x.request_key ≠ key) (hkey : e.request_key = key)
    (hexp : e.expires_at = some t) (ht : t < now) :
    get_cached_response (pre ++ e :: post) key now = (none, pre ++ post, true) := by
  induction pre with
  | nil => simp [get_cached_response, hkey, hexp, ht]
  | cons f rest ih =>
    have hf : f.request_key ≠ key := hpre f (by simp)
    have hrest : ∀ x ∈ rest, x.request_key ≠ key := fun x hx => hpre x (by simp [hx])
    simp [get_cached_response, hf, ih hrest]

/-! ## Claim theorems: fingerprint and cache store -/

/-- C1: `make_request_key` is deterministic — requests with identical
normalized fields (schema version, model, input, instructions with
`None ≡ ""`, ordered per-attachment digests) yield the identical key for
every digest function — and field-sensitive: two distinct normalized
records (differing in model, input, instructions, digest-list length,
order or content) always serialize to distinct byte strings, so the
keys differ whenever the SHA-256 digests of the two serializations
differ. -/
theorem make_request_key_deterministic_and_field_sensitive :
    (∀ (keyHash fileHash : String → String) (fs : String → Option String)
        (r1 r2 : ChatRequest),
      normalizeRequest fileHash fs r1 = normalizeRequest fileHash fs r2 →
      make_request_key keyHash fileHash fs r1 = make_request_key keyHash fileHash fs r2) ∧
    (∀ n1 n2 : NormalizedRecord,
      serializeNormalized n1 = serializeNormalized n2 → n1 = n2) := by
  refine ⟨fun kh fh fs r1 r2 h => ?_, serializeNormalized_injective⟩
  unfold make_request_key
  rw [h]

/-- Witness for C1 at concrete inputs: `instructions = None` and
`instructions = ""` normalize identically and give the same key, and
the serializer distinguishes two records that differ only in the order
of their two attachment digests. -/
theorem make_request_key_deterministic_and_field_sensitive_witness :
    (make_request_key (fun s => s) (fun s => s) (fun _ => none)
        ⟨none, none, "hello", "gemini", ["a.txt"]⟩ =
      make_request_key (fun s => s) (fun s => s) (fun _ => none)
        ⟨none, some "", "hello", "gemini", ["a.txt"]⟩) ∧
    (⟨"v2", "m", "in", "", ["h1", "h2"]⟩ : NormalizedRecord) =
      ⟨"v2", "m", "in", "", ["h1", "h2"]⟩ :=
  ⟨make_request_key_deterministic_and_field_sensitive.1 _ _ _ _ _ rfl,
    make_request_key_deterministic_and_field_sensitive.2 _ _ rfl⟩

/-- C4: cache round-trip — after `store_cached_response` with key `k`
and TTL `ttl`, a `get_cached_response` on `k` at any time strictly
before the computed `expires_at = now + ttl` (any time at all when
`ttl ≤ 0`, in which case `expires_at` is unset) returns an entry whose
`response_text` is the stored text unchanged. -/
theorem cache_roundtrip (cache : List CacheEntry) (key model input : String)
    (instr : Option String) (fhs : List String) (text : String)
    (meta : Option (List (String × String))) (ttl envTTL now now' : Int)
    (hlive : 0 < ttl → now' < now + ttl) :
    ∃ e, (get_cached_response (store_cached_response cache key model input instr fhs text
        meta (some ttl) envTTL now) key now').1 = some e ∧ e.response_text = text := by
  have h := cache_roundtrip_aux cache key model input instr fhs text meta ttl envTTL
    now now' hlive
  obtain ⟨e, he1, he2⟩ := Option.map_eq_some'.mp h
  exact ⟨e, he1, he2⟩

/-- Witness for C4: store under key `"k"` with a 5-day TTL at time 0,
look up at time 3. -/
theorem cache_roundtrip_witness :
    ∃ e, (get_cached_response (store_cached_response [] "k" "m" "in" none [] "resp"
        none (some 5) 30 0) "k" 3).1 = some e ∧ e.response_text = "resp" :=
  cache_roundtrip [] "k" "m" "in" none [] "resp" none 5 30 0 3 (by omega)

/-- C5: lazy expiry — `get_cached_response` returns an entry only when
its `expires_at` is unset or not in the past, and when the first row
matching the key is expired, that row is deleted from the store (with a
commit) and no entry is returned. -/
theorem get_cached_response_lazy_expiry :
    (∀ (cache : List CacheEntry) (key : String) (now : Int) (e : CacheEntry),
      (get_cached_response cache key now).1 = some e →
      e.expires_at = none ∨ ∃ t, e.expires_at = some t ∧ ¬ t < now) ∧
    (∀ (pre : List CacheEntry) (e : CacheEntry) (post : List CacheEntry) (key : String)
        (now t : Int), (∀ x ∈ pre, x.request_key ≠ key) → e.request_key = key →
      e.expires_at = some t → t < now →
      get_cached_response (pre ++ e :: post) key now = (none, pre ++ post, true)) :=
  ⟨get_cached_live_aux, get_cached_expired_deletes_aux⟩

/-- Witness for C5: a live never-expiring entry is returned and
satisfies the expiry disjunction; an entry expired at time 5 is deleted
and `none` returned. -/
theorem get_cached_response_lazy_expiry_witness :
    ((⟨"k", "m", "in", none, [], "r", [], 0, none⟩ : CacheEntry).expires_at = none ∨
      ∃ t, (⟨"k", "m", "in", none, [], "r", [], 0, none⟩ : CacheEntry).expires_at = some t ∧
        ¬ t < (2 : Int)) ∧
    get_cached_response [⟨"k", "m", "in", none, [], "r", [], 0, some 1⟩] "k" 5 =
      (none, [], true) :=
  ⟨get_cached_response_lazy_expiry.1 [⟨"k", "m", "in", none, [], "r", [], 0, none⟩] "k" 2
      ⟨"k", "m", "in", none, [], "r", [], 0, none⟩ (by decide),
    get_cached_response_lazy_expiry.2 [] ⟨"k", "m", "in", none, [], "r", [], 0, some 1⟩ []
      "k" 5 1 (by simp) rfl rfl (by decide)⟩

/-! ## Claim theorems: document extraction -/

/-- A minimal DOCX main-document part: two paragraphs with run text
`Hello` and `World`. -/
def docHelloWorld : XmlNode :=
  .mk "\x7bw\x7ddocument" [] none
    [.mk "\x7bw\x7dbody" [] none
      [.mk "\x7bw\x7dp" [] none [.mk "\x7bw\x7dr" [] none [.mk "\x7bw\x7dt" [] (some "Hello") []]],
       .mk "\x7bw\x7dp" [] none [.mk "\x7bw\x7dr" [] none [.mk "\x7bw\x7dt" [] (some "World") []]]]]

/-- The first paragraph carries `Hello` split over two runs. -/
def docHelloRuns : XmlNode :=
  .mk "\x7bw\x7ddocument" [] none
    [.mk "\x7bw\x7dbody" [] none
      [.mk "\x7bw\x7dp" [] none [.mk "\x7bw\x7dr" [] none [.mk "\x7bw\x7dt" [] (some "Hel") []],
                                 .mk "\x7bw\x7dr" [] none [.mk "\x7bw\x7dt" [] (some "lo") []]],
       .mk "\x7bw\x7dp" [] none [.mk "\x7bw\x7dr" [] none [.mk "\x7bw\x7dt" [] (some "World") []]]]]

/-- A paragraph whose single run is text `A`, a tab element, text `B`. -/
def docWithTab : XmlNode :=
  .mk "\x7bw\x7ddocument" [] none
    [.mk "\x7bw\x7dbody" [] none
      [.mk "\x7bw\x7dp" [] none
        [.mk "\x7bw\x7dr" [] none [.mk "\x7bw\x7dt" [] (some "A") [],
                                   .mk "\x7bw\x7dtab" [] none [],
                                   .mk "\x7bw\x7dt" [] (some "B") []]]]]

/-- C7: the DOCX extractor turns the two-paragraph `Hello`/`World`
document into exactly `"Hello\nWorld"` — same-paragraph runs joined
with no separator (the split-run document gives the same output) and
paragraphs joined by a newline — and a tab element inside a run is
emitted as a literal tab character; the backend's whole-part extractor
agrees on the two-paragraph document. -/
theorem docx_extraction_hello_world_and_tab :
    _extract_text_from_docx_xml docHelloWorld = "Hello\nWorld" ∧
    _extract_text_from_docx_xml docHelloRuns = "Hello\nWorld" ∧
    _extract_text_from_docx_xml docWithTab = "A\tB" ∧
    extract_docx_text_walk docHelloWorld = "Hello\nWorld" := by decide

/-- The row elements the XLSX sheet walk visits, in document order. -/
def sheetRowElems (root : XmlNode) : List XmlNode :=
  root.iter.filter (fun n => strEndsWith n.tag "\x7drow")

/-- The rendering of one non-empty row: its cell values joined by
`" | "`. -/
def renderRow (ss : List String) (r : XmlNode) : String :=
  String.intercalate " | " (rowCells r ss)

theorem extractRowsLoop_trunc (ss : List String) (maxRows : Nat) :
    ∀ (rs : List XmlNode) (acc : List String),
    (∀ r ∈ rs, rowCells r ss ≠ []) → acc.length < maxRows →
    maxRows ≤ acc.length + rs.length →
    extractRowsLoop ss maxRows rs acc =
      acc ++ (rs.take (maxRows - acc.length)).map (renderRow ss) ++ ["[...] truncated"] := by
  intro rs
  induction rs with
  | nil => intro acc _ hlt hge; simp at hge; omega
  | cons r rest ih =>
    intro acc hne hlt hge
    have hcell : rowCells r ss ≠ [] := hne r (by simp)
    have hrest : ∀ x ∈ rest, rowCells x ss ≠ [] := fun x hx => hne x (by simp [hx])
    rw [extractRowsLoop]
    simp only [List.isEmpty_eq_true, hcell, if_false, ite_false]
    by_cases hstop : maxRows ≤ (acc ++ [String.intercalate " | " (rowCells r ss)]).length
    · simp only [hstop, if_true, ite_true]
      have hlen : (acc ++ [String.intercalate " | " (rowCells r ss)]).length = acc.length + 1 := by
        simp
      have heq : maxRows - acc.length = 1 := by simp at hstop; omega
      rw [heq]
      simp [renderRow]
    · simp only [hstop, if_false, ite_false]
      have hlt' : (acc ++ [String.intercalate " | " (rowCells r ss)]).length < maxRows := by
        simp at hstop ⊢; omega
      have hge' : maxRows ≤ (acc ++ [String.intercalate " | " (rowCells r ss)]).length
          + rest.length := by
        simp at hstop hge ⊢; omega
      rw [ih _ hrest hlt' hge']
      have htake : maxRows - acc.length = (maxRows - (acc.length + 1)) + 1 := by
        omega
      rw [htake, List.take_succ_cons]
      simp [renderRow]

/-- C8: for every worksheet part whose row elements all render
non-empty and number exactly 700, the sheet walk emits the first 600
rendered rows followed by exactly one truncation marker line — 601
lines in all, the rows beyond the 600th never being processed. -/
theorem xlsx_row_truncation (root : XmlNode) (ss : List String)
    (hne : ∀ r ∈ sheetRowElems root, rowCells r ss ≠ [])
    (hlen : (sheetRowElems root).length = 700) :
    _extract_rows_from_xlsx_sheet_xml root ss =
      ((sheetRowElems root).take 600).map (renderRow ss) ++ ["[...] truncated"] ∧
    (_extract_rows_from_xlsx_sheet_xml root ss).length = 601 := by
  have h := extractRowsLoop_trunc ss 600 (sheetRowElems root) [] hne (by simp)
    (by simp [hlen])
  constructor
  · simpa [_extract_rows_from_xlsx_sheet_xml, sheetRowElems] using h
  · have h2 : _extract_rows_from_xlsx_sheet_xml root ss =
        ((sheetRowElems root).take 600).map (renderRow ss) ++ ["[...] truncated"] := by
      simpa [_extract_rows_from_xlsx_sheet_xml, sheetRowElems] using h
    rw [h2]
    simp [hlen]

/-- One worksheet row holding a single cell with inline value `x`. -/
def xRowNode : XmlNode :=
  .mk "\x7bx\x7drow" [] none [.mk "\x7bx\x7dc" [] none [.mk "\x7bx\x7dv" [] (some "x") []]]

/-- A worksheet with `n` copies of `xRowNode`. -/
def xSheet (n : Nat) : XmlNode := .mk "\x7bx\x7dworksheet" [] none (List.replicate n xRowNode)

theorem iterList_replicate_xRow (n : Nat) :
    (iterList (List.replicate n xRowNode)).filter (fun m => strEndsWith m.tag "\x7drow") =
      List.replicate n xRowNode := by
  induction n with
  | zero => rfl
  | succ k ih =>
    rw [List.replicate_succ, iterList]
    have hx : XmlNode.iter xRowNode = [xRowNode,
        .mk "\x7bx\x7dc" [] none [.mk "\x7bx\x7dv" [] (some "x") []],
        .mk "\x7bx\x7dv" [] (some "x") []] := rfl
    rw [hx, List.filter_append, ih]
    rfl

theorem sheetRowElems_xSheet (n : Nat) : sheetRowElems (xSheet n) = List.replicate n xRowNode := by
  have h := iterList_replicate_xRow n
  rw [sheetRowElems, xSheet, XmlNode.iter, List.filter_cons]
  rw [show ((XmlNode.mk "\x7bx\x7dworksheet" [] none (List.replicate n xRowNode)).tag) =
    "\x7bx\x7dworksheet" from rfl]
  rw [show strEndsWith "\x7bx\x7dworksheet" "\x7drow" = false from by decide]
  simpa using h

/-- Witness for C8: a sheet of 700 one-cell rows yields 600 rendered
lines and one truncation marker. -/
theorem xlsx_row_truncation_witness :
    _extract_rows_from_xlsx_sheet_xml (xSheet 700) [] =
      List.replicate 600 "x" ++ ["[...] truncated"] ∧
    (_extract_rows_from_xlsx_sheet_xml (xSheet 700) []).length = 601 := by
  have hrows := sheetRowElems_xSheet 700
  have h := xlsx_row_truncation (xSheet 700) []
    (by rw [hrows]; intro r hr; rw [List.eq_of_mem_replicate hr]; decide)
    (by rw [hrows, List.length_replicate])
  obtain ⟨h1, h2⟩ := h
  refine ⟨?_, h2⟩
  rw [h1, hrows, List.take_replicate, List.map_replicate]
  rw [show renderRow [] xRowNode = "x" from by decide]
  rw [show (600 ⊓ 700 : Nat) = 600 from by norm_num]

/-- C9 fails as stated: a boolean-typed cell with no raw value resolves
to the empty string (the empty-raw-value guard precedes the type
dispatch), not to `"FALSE"`. -/
theorem xlsx_boolean_cell_counterexample :
    _extract_xlsx_cell_value (.mk "\x7bx\x7dc" [("t", "b")] none []) [] = "" ∧
    _extract_xlsx_cell_value (.mk "\x7bx\x7dc" [("t", "b")] none []) [] ≠ "FALSE" := by
  decide

/-- C9 amended: for a boolean-typed cell whose raw value is non-empty,
the resolved display value is `"TRUE"` exactly when the raw value is
the string `"1"` and `"FALSE"` otherwise; an empty raw value yields
`""` (the cell is omitted from the row). -/
theorem xlsx_boolean_cell_amended (cell : XmlNode) (ss : List String)
    (hb : getAttr cell.attrs "t" "" = "b") (hraw : rawCellValue cell.children ≠ "") :
    _extract_xlsx_cell_value cell ss =
      if rawCellValue cell.children = "1" then "TRUE" else "FALSE" := by
  simp only [_extract_xlsx_cell_value, hb]
  rw [if_neg (show ¬ ("b" : String) = "inlineStr" from by decide), if_neg hraw,
    if_neg (show ¬ ("b" : String) = "s" from by decide)]
  simp

/-- Witness for C9 amended at raw values `"1"` and `"0"`. -/
theorem xlsx_boolean_cell_amended_witness :
    _extract_xlsx_cell_value (.mk "\x7bx\x7dc" [("t", "b")] none
        [.mk "\x7bx\x7dv" [] (some "1") []]) [] = "TRUE" ∧
    _extract_xlsx_cell_value (.mk "\x7bx\x7dc" [("t", "b")] none
        [.mk "\x7bx\x7dv" [] (some "0") []]) [] = "FALSE" := by
  have h1 := xlsx_boolean_cell_amended (.mk "\x7bx\x7dc" [("t", "b")] none
    [.mk "\x7bx\x7dv" [] (some "1") []]) [] (by decide) (by decide)
  have h0 := xlsx_boolean_cell_amended (.mk "\x7bx\x7dc" [("t", "b")] none
    [.mk "\x7bx\x7dv" [] (some "0") []]) [] (by decide) (by decide)
  rw [h1, h0]
  decide

/-! ## Generation orchestrator (`src/backend/app/services/chat.py`)

The orchestrator is embedded as a pure function over an explicit server
state (cache rows, committed messages, the current instant) and an
environment bundling its external collaborators: the filesystem, the
SHA-256 digests, the Gemini client (upload and generation calls), the
uuid generator, the configured TTL, and whether the first cache lookup
raises a storage error (the code catches such an error and treats it as
a miss).  Messages flushed but not yet committed are tracked separately
so that `session.rollback()` on a backend failure can drop them. -/

/-- A Gemini content part: inline text or an uploaded file reference. -/
inductive ContentPart where
  | text (s : String)
  | fileData (uri mime : String)
  deriving DecidableEq

/-- A Gemini content turn. -/
structure Content where
  role : String
  parts : List ContentPart
  deriving DecidableEq

/-- A conversation `Message` row; its JSON `content` is the text field
the code reads and writes. -/
structure Message where
  conversation_id : String
  role : String
  text : String
  deriving DecidableEq

/-- The exceptions the orchestrator can propagate. -/
inductive ChatError where
  | fileNotFound (path : String)
  | unsupportedExtension (suffix : String)
  | uploadFailed (msg : String)
  | extractionFailed (path : String)
  | backendFailed (msg : String)
  deriving DecidableEq

/-- A file on disk as the orchestrator consumes it: its raw bytes (for
hashing) and, when it is a DOCX archive whose `word/document.xml`
parses, that parsed part (`none` models an unreadable archive or
unparsable XML, on which `extract_docx_text` raises). -/
structure FsFile where
  bytes : String
  docx : Option XmlNode

/-- The `ChatResponse` fields the claims are about: conversation id,
the assistant text, and the status string. -/
structure ChatResponse where
  conversation_id : String
  text : String
  status : String
  deriving DecidableEq

/-- External collaborators of the orchestrator. -/
structure OrchestratorEnv where
  fs : String → Option FsFile
  fileHash : String → String
  keyHash : String → String
  upload : String → String → Except String (String × String)
  backend : String → List Content → Option String → Except String String
  newId : String
  envTTLDays : Int
  firstLookupFails : Bool

/-- Server-side mutable state: cache rows, committed messages, the
current instant. -/
structure ServerState where
  cache : List CacheEntry
  messages : List Message
  now : Int

/-- `pathlib.Path(p).name`: the part after the last slash. -/
def pathName (p : String) : String :=
  String.mk ((p.data.reverse.takeWhile (fun c => c ≠ '/')).reverse)

/-- Index of the last dot of a name, if any. -/
def lastDotIdx (cs : List Char) : Option Nat :=
  match cs.reverse.findIdx? (· = '.') with
  | some j => some (cs.length - 1 - j)
  | none => none

/-- `pathlib.Path(p).suffix`: the final extension with its dot, empty
when the name has no dot, starts with its only dot, or ends in a dot. -/
def pathSuffix (p : String) : String :=
  let name := (pathName p).data
  match lastDotIdx name with
  | some i => if 0 < i ∧ i < name.length - 1 then String.mk (name.drop i) else ""
  | none => ""

/-- Python `str.lower()` (ASCII range, which all extensions use). -/
def strToLower (s : String) : String :=
  String.mk (s.data.map Char.toLower)

/-- Embedding of `get_mime_type` (`src/backend/app/utils/file_utils.py`
lines 66-96) with the `AcceptMimeTypes` values inlined; an unrecognized
extension raises. -/
def get_mime_type (path : String) : Except ChatError String :=
  let suffix := strToLower (pathSuffix path)
  if suffix = ".pdf" then .ok "application/pdf"
  else if suffix = ".doc" then .ok "application/msword"
  else if suffix = ".docx" then
    .ok "application/vnd.openxmlformats-officedocument.wordprocessingml.document"
  else if suffix = ".xls" then .ok "application/vnd.ms-excel"
  else if suffix = ".xlsx" then
    .ok "application/vnd.openxmlformats-officedocument.spreadsheetml.sheet"
  else if suffix = ".ppt" then .ok "application/vnd.ms-powerpoint"
  else if suffix = ".pptx" then
    .ok "application/vnd.openxmlformats-officedocument.presentationml.presentation"
  else if suffix = ".png" then .ok "image/png"
  else if suffix = ".jpg" ∨ suffix = ".jpeg" then .ok "image/jpeg"
  else if suffix = ".webp" then .ok "image/webp"
  else if suffix = ".heic" then .ok "image/heic"
  else if suffix = ".heif" then .ok "image/heif"
  else .error (.unsupportedExtension suffix)

/-- Embedding of the backend `upload_file_to_gemini`: missing path
raises not-found, unmapped extension raises, and the client upload
itself may fail. -/
def upload_file_to_gemini (env : OrchestratorEnv) (path : String) :
    Except ChatError (String × String) :=
  match env.fs path with
  | none => .error (.fileNotFound path)
  | some _ =>
    match get_mime_type path with
    | .error e => .error e
    | .ok mime =>
      match env.upload path mime with
      | .ok r => .ok r
      | .error m => .error (.uploadFailed m)

/-- Embedding of the backend `extract_docx_text` applied to a file:
raises when the archive or its main part is unreadable, otherwise the
XML walk of `word/document.xml`. -/
def extract_docx_text (path : String) (f : FsFile) : Except ChatError String :=
  match f.docx with
  | none => Except.error (.extractionFailed path)
  | some root => Except.ok (extract_docx_text_walk root)

/-- Append a part to the latest turn when it is a user turn, else open
a new user turn (the repeated pattern in `_attach_files_to_contents`). -/
def appendToLatestUserTurn (contents : List Content) (part : ContentPart) : List Content :=
  match contents.getLast? with
  | some last =>
    if last.role = "user" then
      contents.dropLast ++ [{ last with parts := last.parts ++ [part] }]
    else contents ++ [⟨"user", [part]⟩]
  | none => contents ++ [⟨"user", [part]⟩]

/-- The text inlined for a DOCX attachment: the extracted text, or the
fixed placeholder when extraction is empty, truncated to 100000
characters. -/
def docxInlineText (root : XmlNode) : String :=
  let extracted := extract_docx_text_walk root
  pyTake (if extracted = "" then "(No extractable text found in DOCX file.)" else extracted)
    100000

/-- Embedding of `_attach_files_to_contents` (`chat.py` lines 46-81):
for each path in order, a missing path raises not-found; the content
hash is collected (hash I/O failures, which fall back to the path, are
not modelled); a `.docx` file is inlined as extracted text prefixed
with its name, anything else is uploaded and attached by reference. -/
def _attach_files_to_contents (env : OrchestratorEnv) :
    List Content → List String → Except ChatError (List Content × List String)
  | contents, [] => .ok (contents, [])
  | contents, path :: rest =>
    match env.fs path with
    | none => .error (.fileNotFound path)
    | some f =>
      let fh := env.fileHash f.bytes
      if strToLower (pathSuffix path) = ".docx" then
        match extract_docx_text path f with
        | .error e => .error e
        | .ok extracted0 =>
          let extracted :=
            if extracted0 = "" then "(No extractable text found in DOCX file.)" else extracted0
          let part := ContentPart.text ("Content from " ++ pathName path ++ ":\n" ++
            pyTake extracted 100000)
          match _attach_files_to_contents env (appendToLatestUserTurn contents part) rest with
          | .ok (cs, hs) => .ok (cs, fh :: hs)
          | .error e => .error e
      else
        match upload_file_to_gemini env path with
        | .error e => .error e
        | .ok (uri, mime) =>
          match _attach_files_to_contents env
              (appendToLatestUserTurn contents (ContentPart.fileData uri mime)) rest with
          | .ok (cs, hs) => .ok (cs, fh :: hs)
          | .error e => .error e

/-- Embedding of `_gather_history_contents` (`chat.py` lines 20-43):
this conversation's messages in creation order, the external
`assistant` role mapped to the backend `model` role and unknown roles
to `user`. -/
def _gather_history_contents (msgs : List Message) (cid : String) : List Content :=
  (msgs.filter (fun m => m.conversation_id == cid)).map (fun m =>
    let nr := strToLower (pyStrip m.role)
    let role := if nr = "assistant" then "model"
      else if nr = "user" ∨ nr = "model" then nr
      else "user"
    ⟨role, [.text m.text]⟩)

/-- The fingerprint `generate_chat_response` computes, with the
environment's collaborators plugged into `make_request_key`. -/
def requestKey (env : OrchestratorEnv) (req : ChatRequest) : String :=
  make_request_key env.keyHash env.fileHash (fun p => (env.fs p).map FsFile.bytes) req

/-- The config argument of the backend call: a system instruction only
when `request.instructions` is truthy (present and non-empty). -/
def sysInstruction (req : ChatRequest) : Option String :=
  match req.instructions with
  | some s => if s = "" then none else some s
  | none => none

/-- The cache-miss tail of `generate_chat_response` (lines 127-170):
gather history (committed plus flushed-pending rows), attach files
(propagating their errors), call the backend; on success persist the
assistant turn and write through to the cache with the configured TTL;
on failure roll back the pending rows and fall back to the cache,
returning `cached_offline` on a hit and re-raising otherwise.  The
returned `Bool` records whether the generation backend was invoked. -/
def generateOnMiss (env : OrchestratorEnv) (req : ChatRequest) (cache : List CacheEntry)
    (committed pending : List Message) (cid key : String) (now : Int) :
    Except ChatError ChatResponse × ServerState × Bool :=
  let contents := _gather_history_contents (committed ++ pending) cid
  match _attach_files_to_contents env contents req.file_paths with
  | .error e => (.error e, ⟨cache, committed, now⟩, false)
  | .ok (contents2, file_hashes) =>
    match env.backend req.model contents2 (sysInstruction req) with
    | .ok text =>
      let amsg : Message := ⟨cid, "assistant", text⟩
      let cache2 := store_cached_response cache key req.model req.input req.instructions
        file_hashes text none none env.envTTLDays now
      (.ok ⟨cid, text, "completed"⟩, ⟨cache2, committed ++ pending ++ [amsg], now⟩, true)
    | .error msg =>
      let r2 := get_cached_response cache key now
      match r2.1 with
      | some e =>
        let amsg : Message := ⟨cid, "assistant", e.response_text⟩
        (.ok ⟨cid, e.response_text, "cached_offline"⟩, ⟨r2.2.1, committed ++ [amsg], now⟩, true)
      | none => (.error (.backendFailed msg), ⟨r2.2.1, committed, now⟩, true)

/-- Embedding of `generate_chat_response` (`chat.py` lines 84-170).
The user turn is flushed (pending); when `firstLookupFails` the lookup
error is caught and treated as a miss with the cache untouched;
otherwise a live hit appends the assistant turn, commits, and returns
status `cached` without invoking the backend; an expired first match is
deleted (committing the flushed rows along the way) and the miss path
runs.  Conversation-row bookkeeping, which no claim touches, is
omitted. -/
def generate_chat_response (env : OrchestratorEnv) (req : ChatRequest) (st : ServerState) :
    Except ChatError ChatResponse × ServerState × Bool :=
  let cid := req.conversation_id.getD env.newId
  let userMsg : Message := ⟨cid, "user", req.input⟩
  let key := requestKey env req
  if env.firstLookupFails then
    generateOnMiss env req st.cache st.messages [userMsg] cid key st.now
  else
    match get_cached_response st.cache key st.now with
    | (some e, cache1, _) =>
      let amsg : Message := ⟨cid, "assistant", e.response_text⟩
      (.ok ⟨cid, e.response_text, "cached"⟩,
        ⟨cache1, st.messages ++ [userMsg] ++ [amsg], st.now⟩, false)
    | (none, cache1, committed) =>
      if committed then
        generateOnMiss env req cache1 (st.messages ++ [userMsg]) [] cid key st.now
      else
        generateOnMiss env req cache1 st.messages [userMsg] cid key st.now

/-! ## Claim theorems: orchestrator -/

/-- C2: when the first cache lookup finds a live entry for the request
fingerprint, `generate_chat_response` returns status `cached` with that
entry's text and never invokes the generation backend. -/
theorem generate_chat_response_cache_hit (env : OrchestratorEnv) (req : ChatRequest)
    (st : ServerState) (e : CacheEntry)
    (hf : env.firstLookupFails = false)
    (hhit : (get_cached_response st.cache (requestKey env req) st.now).1 = some e) :
    (generate_chat_response env req st).1 =
      Except.ok ⟨req.conversation_id.getD env.newId, e.response_text, "cached"⟩ ∧
    (generate_chat_response env req st).2.2 = false := by
  unfold generate_chat_response
  rw [hf]
  rcases hres : get_cached_response st.cache (requestKey env req) st.now with ⟨o, c1, b⟩
  rw [hres] at hhit
  simp only at hhit
  subst hhit
  simp [hres]

def envC2 : OrchestratorEnv :=
  ⟨fun _ => none, fun s => s, fun s => s, fun _ _ => .error "offline",
    fun _ _ _ => .ok "generated", "conv1", 30, false⟩

def reqC2 : ChatRequest := ⟨none, none, "hi", "m", []⟩

def entryC2 : CacheEntry := ⟨requestKey envC2 reqC2, "m", "hi", none, [], "hit!", [], 0, none⟩

/-- Witness for C2: a state whose cache holds a never-expiring entry at
the request's fingerprint. -/
theorem generate_chat_response_cache_hit_witness :
    (generate_chat_response envC2 reqC2 ⟨[entryC2], [], 0⟩).1 =
      Except.ok ⟨"conv1", "hit!", "cached"⟩ ∧
    (generate_chat_response envC2 reqC2 ⟨[entryC2], [], 0⟩).2.2 = false :=
  generate_chat_response_cache_hit envC2 reqC2 ⟨[entryC2], [], 0⟩ entryC2 rfl (by decide)

def envC3 : OrchestratorEnv :=
  ⟨fun _ => none, fun s => s, fun s => s, fun _ _ => .error "offline",
    fun _ _ _ => .error "backend down", "conv1", 30, false⟩

def entryC3 : CacheEntry := ⟨requestKey envC3 reqC2, "m", "hi", none, [], "hit!", [], 0, none⟩

/-- C3 fails as stated: with a live pre-populated entry and a backend
that always raises, the first cache check already hits, so the call
returns status `cached` — not `cached_offline` as the claim asserts
(the backend is never reached). -/
theorem fallback_on_failure_counterexample :
    (generate_chat_response envC3 reqC2 ⟨[entryC3], [], 0⟩).1 =
      Except.ok ⟨"conv1", "hit!", "cached"⟩ ∧
    (⟨"conv1", "hit!", "cached"⟩ : ChatResponse).status ≠ "cached_offline" := by
  constructor
  · rfl
  · decide

/-- C3 amended: status `cached_offline` with the cached text, without
propagating the backend error, is returned when the first cache lookup
fails with a storage error (treated as a miss), a live entry exists for
the fingerprint, the attachments all process, and the backend always
raises. -/
theorem fallback_on_failure_amended (env : OrchestratorEnv) (req : ChatRequest)
    (st : ServerState) (e : CacheEntry)
    (hf : env.firstLookupFails = true)
    (hhit : (get_cached_response st.cache (requestKey env req) st.now).1 = some e)
    (hattach : ∃ r, _attach_files_to_contents env
      (_gather_history_contents
        (st.messages ++ [⟨req.conversation_id.getD env.newId, "user", req.input⟩])
        (req.conversation_id.getD env.newId))
      req.file_paths = Except.ok r)
    (hbackend : ∀ m c i, ∃ s, env.backend m c i = Except.error s) :
    (generate_chat_response env req st).1 =
      Except.ok ⟨req.conversation_id.getD env.newId, e.response_text, "cached_offline"⟩ := by
  unfold generate_chat_response
  rw [hf]
  simp only [if_true, ite_true, reduceIte]
  unfold generateOnMiss
  obtain ⟨⟨c2, fh⟩, hr⟩ := hattach
  simp only [hr]
  obtain ⟨s, hs⟩ := hbackend req.model c2 (sysInstruction req)
  simp only [hs]
  rcases hres : get_cached_response st.cache (requestKey env req) st.now with ⟨o, c1, b⟩
  rw [hres] at hhit
  simp only at hhit
  subst hhit
  simp [hres]

def envC3f : OrchestratorEnv :=
  ⟨fun _ => none, fun s => s, fun s => s, fun _ _ => .error "offline",
    fun _ _ _ => .error "backend down", "conv1", 30, true⟩

def entryC3f : CacheEntry := ⟨requestKey envC3f reqC2, "m", "hi", none, [], "hit!", [], 0, none⟩

/-- Witness for C3 amended: failing first lookup, no attachments,
always-raising backend, live entry present. -/
theorem fallback_on_failure_amended_witness :
    (generate_chat_response envC3f reqC2 ⟨[entryC3f], [], 0⟩).1 =
      Except.ok ⟨"conv1", "hit!", "cached_offline"⟩ :=
  fallback_on_failure_amended envC3f reqC2 ⟨[entryC3f], [], 0⟩ entryC3f rfl (by decide)
    ⟨(_, []), rfl⟩ (fun m c i => ⟨"backend down", rfl⟩)

theorem attach_error_on_missing (env : OrchestratorEnv) (p : String)
    (hp : env.fs p = none) :
    ∀ (pre rest : List String) (contents : List Content),
    (∃ r, _attach_files_to_contents env contents pre = Except.ok r) →
    _attach_files_to_contents env contents (pre ++ p :: rest) =
      Except.error (.fileNotFound p) := by
  intro pre
  induction pre with
  | nil =>
    intro rest contents _
    simp [_attach_files_to_contents, hp]
  | cons q qs ih =>
    intro rest contents hok
    obtain ⟨r, hr⟩ := hok
    rw [List.cons_append]
    rw [_attach_files_to_contents] at hr ⊢
    cases hfq : env.fs q with
    | none => rw [hfq] at hr; exact absurd hr (by simp)
    | some f =>
      rw [hfq] at hr
      simp only at hr ⊢
      by_cases hdx : strToLower (pathSuffix q) = ".docx"
      · rw [if_pos hdx] at hr ⊢
        cases hext : extract_docx_text q f with
        | error e => rw [hext] at hr; exact absurd hr (by simp)
        | ok extracted0 =>
          rw [hext] at hr
          simp only at hr ⊢
          cases hrec : _attach_files_to_contents env (appendToLatestUserTurn contents
              (ContentPart.text ("Content from " ++ pathName q ++ ":\n" ++ pyTake
                (if extracted0 = "" then "(No extractable text found in DOCX file.)"
                 else extracted0) 100000))) qs with
          | error e2 => rw [hrec] at hr; exact absurd hr (by simp)
          | ok r2 =>
            rw [ih rest _ ⟨r2, hrec⟩]
      · rw [if_neg hdx] at hr ⊢
        cases hup : upload_file_to_gemini env q with
        | error e2 => rw [hup] at hr; exact absurd hr (by simp)
        | ok um =>
          rcases um with ⟨uri, mime⟩
          rw [hup] at hr
          simp only at hr ⊢
          cases hrec : _attach_files_to_contents env (appendToLatestUserTurn contents
              (ContentPart.fileData uri mime)) qs with
          | error e2 => rw [hrec] at hr; exact absurd hr (by simp)
          | ok r2 =>
            rw [ih rest _ ⟨r2, hrec⟩]

theorem generateOnMiss_attach_error (env : OrchestratorEnv) (req : ChatRequest)
    (cache : List CacheEntry) (committed pending : List Message) (cid key : String)
    (now : Int) (e : ChatError)
    (hatt : _attach_files_to_contents env
      (_gather_history_contents (committed ++ pending) cid) req.file_paths =
        Except.error e) :
    (generateOnMiss env req cache committed pending cid key now).1 = Except.error e := by
  unfold generateOnMiss
  simp only [hatt]

/-- C6 amended: a missing attachment path fails the request with a
not-found error provided the cache check does not hit first — the
first lookup misses or fails — and every attachment before the first
missing one processes successfully. -/
theorem missing_attachment_amended (env : OrchestratorEnv) (req : ChatRequest)
    (st : ServerState) (pre : List String) (p : String) (rest : List String)
    (hpaths : req.file_paths = pre ++ p :: rest)
    (hp : env.fs p = none)
    (hpre : ∀ contents, ∃ r, _attach_files_to_contents env contents pre = Except.ok r)
    (hmiss : env.firstLookupFails = true ∨
      (get_cached_response st.cache (requestKey env req) st.now).1 = none) :
    (generate_chat_response env req st).1 = Except.error (.fileNotFound p) := by
  have happ : ∀ contents, _attach_files_to_contents env contents req.file_paths =
      Except.error (.fileNotFound p) := by
    intro contents
    rw [hpaths]
    exact attach_error_on_missing env p hp pre rest contents (hpre contents)
  unfold generate_chat_response
  rcases hmiss with hlf | hnone
  · rw [hlf]
    simp only [if_true, ite_true, reduceIte]
    exact generateOnMiss_attach_error env req _ _ _ _ _ _ _ (happ _)
  · cases hlf : env.firstLookupFails with
    | true =>
      simp only [if_true, ite_true, reduceIte]
      exact generateOnMiss_attach_error env req _ _ _ _ _ _ _ (happ _)
    | false =>
      simp only [Bool.false_eq_true, if_false, ite_false, reduceIte]
      rcases hres : get_cached_response st.cache (requestKey env req) st.now with ⟨o, c1, b⟩
      rw [hres] at hnone
      simp only at hnone
      subst hnone
      simp only [hres]
      cases b with
      | true =>
        simp only [if_true, ite_true, reduceIte]
        exact generateOnMiss_attach_error env req _ _ _ _ _ _ _ (happ _)
      | false =>
        simp only [Bool.false_eq_true, if_false, ite_false, reduceIte]
        exact generateOnMiss_attach_error env req _ _ _ _ _ _ _ (happ _)

def envC6 : OrchestratorEnv :=
  ⟨fun _ => none, fun s => s, fun s => s, fun _ _ => .error "offline",
    fun _ _ _ => .ok "generated", "conv1", 30, false⟩

def reqC6 : ChatRequest := ⟨none, none, "hi", "m", ["ghost.pdf"]⟩

def entryC6 : CacheEntry := ⟨requestKey envC6 reqC6, "m", "hi", none, [], "hit!", [], 0, none⟩

/-- C6 fails as stated: the cache check precedes attachment handling,
so a request whose only attachment path is missing still succeeds with
status `cached` when a live entry exists for its fingerprint (whose
per-attachment digest is the path-string fallback), and no not-found
error is raised. -/
theorem missing_attachment_counterexample :
    envC6.fs "ghost.pdf" = none ∧
    (generate_chat_response envC6 reqC6 ⟨[entryC6], [], 0⟩).1 =
      Except.ok ⟨"conv1", "hit!", "cached"⟩ ∧
    (generate_chat_response envC6 reqC6 ⟨[entryC6], [], 0⟩).1 ≠
      Except.error (ChatError.fileNotFound "ghost.pdf") := by
  refine ⟨rfl, rfl, fun hcontra => ?_⟩
  have h2 : (generate_chat_response envC6 reqC6 ⟨[entryC6], [], 0⟩).1 =
      Except.ok ⟨"conv1", "hit!", "cached"⟩ := rfl
  rw [h2] at hcontra
  exact Except.noConfusion hcontra

def envC6m : OrchestratorEnv :=
  ⟨fun _ => none, fun s => s, fun s => s, fun _ _ => .error "offline",
    fun _ _ _ => .ok "generated", "conv1", 30, false⟩

/-- Witness for C6 amended: an empty cache and one missing path. -/
theorem missing_attachment_amended_witness :
    (generate_chat_response envC6m reqC6 ⟨[], [], 0⟩).1 =
      Except.error (.fileNotFound "ghost.pdf") :=
  missing_attachment_amended envC6m reqC6 ⟨[], [], 0⟩ [] "ghost.pdf" [] rfl rfl
    (fun contents => ⟨(contents, []), rfl⟩) (Or.inr rfl)

theorem pyTake_pos_ne_empty (s : String) (h : s ≠ "") (n : Nat) (hn : 0 < n) :
    pyTake s n ≠ "" := by
  cases hs : s.data with
  | nil =>
    exfalso
    apply h
    cases s
    simp at hs
    simp [hs]
  | cons c cs =>
    cases n with
    | zero => omega
    | succ k =>
      unfold pyTake
      rw [hs]
      intro heq
      have h2 := congrArg String.data heq
      simp at h2

/-- C10: a `.docx` attachment is inlined as a text part appended to the
latest user turn whose text is `Content from <name>:` followed by a
newline and the inlined body — the extracted text truncated to 100000
characters, or the fixed placeholder `(No extractable text found in
DOCX file.)` when extraction yields the empty string — and that body is
never empty. -/
theorem docx_placeholder_inlining (env : OrchestratorEnv) (contents : List Content)
    (path : String) (rest : List String) (f : FsFile) (root : XmlNode)
    (hsuffix : strToLower (pathSuffix path) = ".docx")
    (hfs : env.fs path = some f) (hdocx : f.docx = some root) :
    _attach_files_to_contents env contents (path :: rest) =
      (match _attach_files_to_contents env
          (appendToLatestUserTurn contents (ContentPart.text
            ("Content from " ++ pathName path ++ ":\n" ++ docxInlineText root))) rest with
        | .ok (cs, hs) => .ok (cs, env.fileHash f.bytes :: hs)
        | .error e => .error e) ∧
    docxInlineText root ≠ "" := by
  constructor
  · rw [_attach_files_to_contents, hfs]
    simp only [extract_docx_text, hdocx, hsuffix, if_pos, ite_true, reduceIte, docxInlineText]
  · by_cases h : extract_docx_text_walk root = ""
    · simp only [docxInlineText, h, ite_true, reduceIte]
      decide
    · simp only [docxInlineText, h, ite_false, reduceIte]
      exact pyTake_pos_ne_empty _ h 100000 (by omega)

def docEmpty : XmlNode := .mk "\x7bw\x7ddocument" [] none []

def envC10 : OrchestratorEnv :=
  ⟨fun p => if p = "report.docx" then some ⟨"PK", some docEmpty⟩ else none,
    fun s => s, fun s => s, fun _ _ => .error "offline",
    fun _ _ _ => .ok "generated", "conv1", 30, false⟩

/-- Witness for C10: a readable DOCX with no extractable text is inlined
as the placeholder, prefixed with its file name. -/
theorem docx_placeholder_inlining_witness :
    _attach_files_to_contents envC10 [] ["report.docx"] =
      Except.ok ([⟨"user", [ContentPart.text
        "Content from report.docx:\n(No extractable text found in DOCX file.)"]⟩], ["PK"]) ∧
    docxInlineText docEmpty ≠ "" := by
  have h := docx_placeholder_inlining envC10 [] "report.docx" [] ⟨"PK", some docEmpty⟩
    docEmpty (by decide) rfl rfl
  refine ⟨?_, h.2⟩
  rw [h.1]
  rfl
